import Mathlib

/-!
Verification development for the ttok4bedrock token counter
(`ttok4bedrock/bedrock_counter.py` and `ttok4bedrock/__init__.py`).

Modelling conventions:
* Python strings are sequences of codepoints, embedded as `List Char`
  (so `text[:n]` is `List.take n text` and `len(text)` is `List.length`).
* The Bedrock CountTokens oracle is an abstract deterministic function
  `raw : List Char → String → Option Nat`; `none` models a botocore
  `ClientError` raised by the call, `some v` models `{"inputTokens": v}`.
  Determinism matches the spec's trust assumption on the oracle.
* The `functools.lru_cache` wrapping `_count_tokens_impl` is an explicit
  most-recently-used-first association list with capacity `cacheSize`;
  failures are never cached.
* Python `float` ratio arithmetic (`chars_per_token`, the heuristic
  adjustment factors) is embedded in `ℚ`.  All concrete runs proved below
  use values (powers of two, small integers) at which IEEE double
  arithmetic is exact, so the `ℚ` trace coincides with the `float` trace.
* Each state also carries ghost observability fields: `issuedKeys` logs
  every actual oracle network call, and truncation runs log every text
  whose token count was requested (`probes`).
-/

namespace Ttok

/-- `SUPPORTED_MODELS` from `BedrockTokenCounter`. -/
def SUPPORTED_MODELS : List String :=
  ["anthropic.claude-sonnet-4-20250514-v1:0",
   "anthropic.claude-3-5-haiku-20241022-v1:0",
   "anthropic.claude-3-5-sonnet-20241022-v2:0",
   "anthropic.claude-3-5-sonnet-20240620-v1:0",
   "anthropic.claude-3-7-sonnet-20250219-v1:0",
   "anthropic.claude-opus-4-20250514-v1:0"]

/-- The external CountTokens oracle: deterministic raw count per
(text, model); `none` models a `ClientError` failure of the call. -/
structure Oracle where
  raw : List Char → String → Option Nat

/-- Errors surfaced by the embedded operations: `valueError` is the
configuration error raised by `_format_input_for_model`, `clientError`
the botocore failure, `zeroDivisionError` the Python division-by-zero
reachable in `truncate`. -/
inductive Err where
  | valueError
  | clientError
  | zeroDivisionError
deriving DecidableEq, Repr

/-- Cache keys: the `(text, model_id)` argument pair of
`_count_tokens_impl`. -/
abbrev Key := List Char × String

/-- State of one `BedrockTokenCounter` instance: the LRU cache (most
recently used first) plus a ghost log of every oracle call issued. -/
structure CounterState where
  cacheSize : Nat
  entries : List (Key × Nat)
  issuedKeys : List Key
deriving DecidableEq, Repr

/-- A fresh `BedrockTokenCounter(cache_size = n)`: empty cache, no calls
issued yet. -/
def initState (n : Nat) : CounterState := ⟨n, [], []⟩

/-- Cache lookup (`lru_cache` hit test) for one key. -/
def lookupCache (entries : List (Key × Nat)) (k : Key) : Option Nat :=
  (entries.find? (fun e => decide (e.1 = k))).map (fun e => e.2)

/-- `_format_input_for_model` succeeds exactly when the model is in
`SUPPORTED_MODELS`; otherwise it raises `ValueError` before any oracle
call.  The envelope contents are irrelevant to counting. -/
def formatOk (modelId : String) : Bool := SUPPORTED_MODELS.contains modelId

/-- `_count_tokens_impl`: validates the model (building the envelope),
then issues one oracle call.  The issued call is logged; a `ValueError`
happens before any call is issued. -/
def countTokensImpl (o : Oracle) (text : List Char) (modelId : String)
    (st : CounterState) : Except Err Nat × CounterState :=
  if formatOk modelId then
    match o.raw text modelId with
    | some v => (.ok v, { st with issuedKeys := st.issuedKeys ++ [(text, modelId)] })
    | none => (.error .clientError, { st with issuedKeys := st.issuedKeys ++ [(text, modelId)] })
  else (.error .valueError, st)

/-- `self._count_tokens_cached`: on a hit return the cached value and
refresh its recency; on a miss delegate to `_count_tokens_impl`, cache a
successful result (evicting the least recently used entry beyond
capacity), and never cache a failure. -/
def countTokensCached (o : Oracle) (text : List Char) (modelId : String)
    (st : CounterState) : Except Err Nat × CounterState :=
  match lookupCache st.entries (text, modelId) with
  | some v =>
    (.ok v, { st with entries :=
      ((text, modelId), v) :: st.entries.filter (fun e => decide (e.1 ≠ (text, modelId))) })
  | none =>
    match countTokensImpl o text modelId st with
    | (.ok v, st') =>
      (.ok v, { st' with entries := (((text, modelId), v) :: st'.entries).take st'.cacheSize })
    | (.error e, st') => (.error e, st')

/-- `_get_message_overhead`: probe the minimal text `"A"` through the
same LRU cache; the overhead is that raw count minus 1. -/
def getMessageOverhead (o : Oracle) (modelId : String) (st : CounterState) :
    Except Err Int × CounterState :=
  match countTokensCached o ['A'] modelId st with
  | (.ok ra, st') => (.ok ((ra : Int) - 1), st')
  | (.error e, st') => (.error e, st')

/-- `BedrockTokenCounter.count_tokens`: raw cached count of the text,
minus the message overhead, floored at 0. -/
def count_tokens (o : Oracle) (text : List Char) (modelId : String)
    (st : CounterState) : Except Err Nat × CounterState :=
  match countTokensCached o text modelId st with
  | (.ok rawC, st1) =>
    match getMessageOverhead o modelId st1 with
    | (.ok ov, st2) => (.ok (max 0 ((rawC : Int) - ov)).toNat, st2)
    | (.error e, st2) => (.error e, st2)
  | (.error e, st1) => (.error e, st1)

/-- The corrected token count determined by the oracle alone:
`max(0, raw(text) − (raw("A") − 1))`, or `none` if either oracle answer
is a failure.  This is the value every successful corrected-count probe
returns (oracle determinism plus cache coherence). -/
def cntPure (o : Oracle) (m : String) (t : List Char) : Option Nat :=
  match o.raw t m, o.raw ['A'] m with
  | some rt, some ra => some (max 0 ((rt : Int) - ((ra : Int) - 1))).toNat
  | _, _ => none

/-- A cache is coherent when every entry records an actual (successful)
oracle answer.  Every reachable instance state is coherent because
entries are only written from successful `_count_tokens_impl` calls. -/
def Coherent (o : Oracle) (cs : CounterState) : Prop :=
  ∀ e ∈ cs.entries, o.raw e.1.1 e.1.2 = some e.2

/-- Exact fraction arithmetic embedding the Python float expressions of
`truncate` (ratios, heuristic multipliers): an unnormalized numerator
over a denominator.  Every value computed on it in `truncate` has a
nonnegative numerator and, where the value is used, a positive
denominator.  All concrete runs proved below use values at which IEEE
double arithmetic is exact, so this exact arithmetic coincides with the
float trace there. -/
structure Frac where
  num : Int
  den : Int
deriving DecidableEq, Repr

/-- Fraction division of two natural counts (`a / b` in Python). -/
def fdiv (a b : Nat) : Frac := ⟨a, b⟩

/-- Fraction multiplication. -/
def fmul (x y : Frac) : Frac := ⟨x.num * y.num, x.den * y.den⟩

/-- Multiplication of a fraction by a natural count. -/
def fscale (n : Nat) (x : Frac) : Frac := ⟨n * x.num, x.den⟩

/-- Strict fraction comparison `x > y`, by cross-multiplication (valid
at every use site: denominators there are positive). -/
abbrev fgt (x y : Frac) : Prop := y.num * x.den < x.num * y.den

/-- Python `int()` applied to a nonnegative fraction (all `int(...)`
casts in `truncate` act on nonnegative values, where truncation toward
zero is the floor). -/
def ffloorNat (x : Frac) : Nat := (x.num / x.den).toNat

/-- Number of characters of `text` in the punctuation set `.,!?;:`
(numerator of `punctuation_ratio`). -/
def punctCount (text : List Char) : Nat :=
  (text.filter (fun c => ['.', ',', '!', '?', ';', ':'].contains c)).length

/-- `text.count(' ')`. -/
def spaceCount (text : List Char) : Nat := text.count ' '

/-- The `adjustment_factor` of `truncate` step 2: starts at 1 and is
multiplied by 0.95 when the punctuation fraction exceeds 0.05, by 0.98
when the space fraction exceeds 0.15, and by 1.02 when the average word
length `len(text.replace(' ','')) / max(count+1, 1)` exceeds 8. -/
def adjustmentFactor (text : List Char) : Frac :=
  let f1 : Frac :=
    if fgt (fdiv (punctCount text) text.length) ⟨5, 100⟩ then ⟨95, 100⟩ else ⟨1, 1⟩
  let f2 : Frac :=
    if fgt (fdiv (spaceCount text) text.length) ⟨15, 100⟩ then ⟨98, 100⟩ else ⟨1, 1⟩
  let f3 : Frac :=
    if fgt (fdiv (text.length - spaceCount text) (max (spaceCount text + 1) 1)) ⟨8, 1⟩
    then ⟨102, 100⟩ else ⟨1, 1⟩
  fmul f1 (fmul f2 f3)

/-- `chars_per_token = len(text) / full_count_raw` (the raw,
pre-overhead count). -/
def cptOf (text : List Char) (fullRaw : Nat) : Frac :=
  fdiv text.length fullRaw

/-- The initial candidate length:
`min(int(max_tokens * chars_per_token * adjustment_factor), len(text))`. -/
def seedTarget (text : List Char) (maxTokens fullRaw : Nat) : Nat :=
  min (ffloorNat (fscale maxTokens (fmul (cptOf text fullRaw) (adjustmentFactor text))))
    text.length

/-- Search state of the adaptive loop of `truncate`: bookkeeping counter
`api_calls`, candidate length `target_chars`, best feasible prefix seen
with its corrected count, the instance cache state, and the ghost log of
probed texts. -/
structure LoopSt where
  apiCalls : Nat
  targetChars : Nat
  best : List Char
  bestCount : Nat
  cs : CounterState
  probes : List (List Char)
deriving DecidableEq, Repr

/-- Error outcome of a truncation phase: the raised error together with
the instance state and probe log at the raise site. -/
abbrev LoopErr := Err × CounterState × List (List Char)

/-- The widening local scan of the under-target branch:
`for i in range(len(best_text), min(len(best_text)+15, len(text)))`,
probing `text[:i+1]`, accepting while the count stays within target,
stopping at overshoot or exact match.  A `ClientError` on a probe is
absorbed (`break`); any other error propagates. -/
def widenScan (o : Oracle) (m : String) (text : List Char) (maxTokens : Nat) :
    List Nat → LoopSt → Except LoopErr LoopSt
  | [], s => .ok s
  | i :: rest, s =>
    let tt := text.take (i + 1)
    match count_tokens o tt m s.cs with
    | (.ok c, cs') =>
      let s1 : LoopSt :=
        { s with apiCalls := s.apiCalls + 1, cs := cs', probes := s.probes ++ [tt] }
      if c ≤ maxTokens then
        let s2 := { s1 with best := tt, bestCount := c }
        if c = maxTokens then .ok s2 else widenScan o m text maxTokens rest s2
      else .ok s1
    | (.error .clientError, cs') =>
      .ok { s with cs := cs', probes := s.probes ++ [tt] }
    | (.error e, cs') => .error (e, cs', s.probes ++ [tt])

/-- The shrinking local scan of the over-target branch:
`for i in range(len(best_text), 0, -1)`, probing `text[:i]` and stopping
at the first count within target.  A `ClientError` on a probe is
absorbed (`break`); any other error propagates. -/
def shrinkScan (o : Oracle) (m : String) (text : List Char) (maxTokens : Nat) :
    List Nat → LoopSt → Except LoopErr LoopSt
  | [], s => .ok s
  | i :: rest, s =>
    let tt := text.take i
    match count_tokens o tt m s.cs with
    | (.ok c, cs') =>
      let s1 : LoopSt :=
        { s with apiCalls := s.apiCalls + 1, cs := cs', probes := s.probes ++ [tt] }
      if c ≤ maxTokens then .ok { s1 with best := tt, bestCount := c }
      else shrinkScan o m text maxTokens rest s1
    | (.error .clientError, cs') =>
      .ok { s with cs := cs', probes := s.probes ++ [tt] }
    | (.error e, cs') => .error (e, cs', s.probes ++ [tt])

/-- The adaptive learning loop (`while api_calls < 20`).  `fuel` bounds
the number of loop iterations evaluated; `none` models an execution that
would keep iterating (the loop does not increment `api_calls` on the
absorbed-failure path, so it need not terminate).  Each iteration probes
`text[:target_chars]`, then: exact match stops; under target records the
best and either widens by the estimated gap or runs the widening local
scan and stops; over target shrinks by the estimated excess (never below
one character) or runs the shrinking local scan and stops; an absorbed
`ClientError` shrinks `target_chars` by the fixed step 10 and continues
without consuming `api_calls`. -/
def truncLoop (o : Oracle) (m : String) (text : List Char) (maxTokens : Nat) (cpt : Frac) :
    Nat → LoopSt → Option (Except LoopErr LoopSt)
  | 0, _ => none
  | fuel + 1, s =>
    if s.apiCalls < 20 then
      let tt := text.take s.targetChars
      match count_tokens o tt m s.cs with
      | (.ok c, cs') =>
        let s1 : LoopSt :=
          { s with apiCalls := s.apiCalls + 1, cs := cs', probes := s.probes ++ [tt] }
        if c = maxTokens then some (.ok { s1 with best := tt, bestCount := c })
        else if c < maxTokens then
          let s2 := { s1 with best := tt, bestCount := c }
          let additional := ffloorNat (fscale (maxTokens - c) cpt)
          let s3 := { s2 with targetChars := min (s2.targetChars + additional) text.length }
          if additional ≤ 5 then
            match widenScan o m text maxTokens
                (List.range' s2.best.length (min (s2.best.length + 15) text.length - s2.best.length)) s3 with
            | .ok w => some (.ok w)
            | .error e => some (.error e)
          else truncLoop o m text maxTokens cpt fuel s3
        else
          let charsToRemove := ffloorNat (fscale (c - maxTokens) cpt)
          let s3 := { s1 with targetChars := max (s1.targetChars - charsToRemove) 1 }
          if charsToRemove ≤ 5 then
            match shrinkScan o m text maxTokens ((List.range' 1 s1.best.length).reverse) s3 with
            | .ok w => some (.ok w)
            | .error e => some (.error e)
          else truncLoop o m text maxTokens cpt fuel s3
      | (.error .clientError, cs') =>
        truncLoop o m text maxTokens cpt fuel
          { s with targetChars := max (s.targetChars - 10) 1, cs := cs',
                   probes := s.probes ++ [tt] }
      | (.error e, cs') => some (.error (e, cs', s.probes ++ [tt]))
    else some (.ok s)

/-- Result of `truncate(..., return_metadata=True)`:
`(best_text, {'api_calls': ..., 'final_token_count': ...})`. -/
structure TruncResult where
  result : List Char
  apiCalls : Nat
  finalTokenCount : Nat
deriving DecidableEq, Repr

/-- State of the final verification / exhaustive fallback phase. -/
structure FinSt where
  apiCalls : Nat
  best : List Char
  final : Nat
  cs : CounterState
  probes : List (List Char)
deriving DecidableEq, Repr

/-- The exhaustive fallback: `for i in range(1, len(text)+1)`, breaking
once `api_calls >= 20` (checked before each probe), stopping at an exact
match and otherwise tracking the longest prefix with count below target.
Probe failures here are not caught and propagate. -/
def exhaustiveScan (o : Oracle) (m : String) (text : List Char) (maxTokens : Nat) :
    List Nat → FinSt → Except LoopErr FinSt
  | [], s => .ok s
  | i :: rest, s =>
    if 20 ≤ s.apiCalls then .ok s
    else
      let tt := text.take i
      match count_tokens o tt m s.cs with
      | (.ok c, cs') =>
        let s1 : FinSt :=
          { s with apiCalls := s.apiCalls + 1, cs := cs', probes := s.probes ++ [tt] }
        if c = maxTokens then .ok { s1 with best := tt, final := c }
        else if c < maxTokens then
          exhaustiveScan o m text maxTokens rest { s1 with best := tt, final := c }
        else exhaustiveScan o m text maxTokens rest s1
      | (.error e, cs') => .error (e, cs', s.probes ++ [tt])

/-- Final verification and correction (`truncate` after the loop): when
a best prefix was recorded, re-count it (one more `api_calls`, failure
not caught) and, if not exactly on target while `api_calls < 20`, run
the exhaustive fallback; when no best prefix was recorded, return the
empty text with `final_token_count = 0` and no further probe. -/
def truncFinish (o : Oracle) (m : String) (text : List Char) (maxTokens : Nat)
    (ls : LoopSt) : Except LoopErr (TruncResult × CounterState × List (List Char)) :=
  if ls.best = [] then .ok (⟨ls.best, ls.apiCalls, 0⟩, ls.cs, ls.probes)
  else
    match count_tokens o ls.best m ls.cs with
    | (.error e, cs') => .error (e, cs', ls.probes ++ [ls.best])
    | (.ok fc, cs') =>
      let api := ls.apiCalls + 1
      let ps := ls.probes ++ [ls.best]
      if fc ≠ maxTokens ∧ api < 20 then
        match exhaustiveScan o m text maxTokens (List.range' 1 text.length)
            ⟨api, ls.best, fc, cs', ps⟩ with
        | .ok fs => .ok (⟨fs.best, fs.apiCalls, fs.final⟩, fs.cs, fs.probes)
        | .error e => .error e
      else .ok (⟨ls.best, api, fc⟩, cs', ps)

/-- The loop seed: `api_calls = 1` after the full-text probe, the
heuristic initial `target_chars`, no best prefix yet. -/
def initLoop (text : List Char) (maxTokens fullRaw : Nat) (cs : CounterState) : LoopSt :=
  ⟨1, seedTarget text maxTokens fullRaw, [], 0, cs, [text]⟩

/-- Steps 2–6 of `truncate` (after the full-fit fast path): seed the
ratio and candidate, run the adaptive loop, then verification and the
exhaustive fallback. -/
def truncAdaptive (o : Oracle) (text : List Char) (maxTokens : Nat) (m : String)
    (fuel : Nat) (cs2 : CounterState) (fullRaw : Nat) :
    Option ((Except Err TruncResult) × CounterState × List (List Char)) :=
  match truncLoop o m text maxTokens (cptOf text fullRaw) fuel
      (initLoop text maxTokens fullRaw cs2) with
  | none => none
  | some (.error (e, cs, ps)) => some (.error e, cs, ps)
  | some (.ok ls) =>
    match truncFinish o m text maxTokens ls with
    | .error (e, cs, ps) => some (.error e, cs, ps)
    | .ok (r, cs, ps) => some (.ok r, cs, ps)

/-- `BedrockTokenCounter.truncate(text, max_tokens, model_id,
return_metadata=True)`.  Step 1 probes the raw full count (uncaught
failure propagates), computes the overhead, and returns the full text
with one reported call when it already fits.  Otherwise Python computes
`chars_per_token = len(text)/full_count_raw` (ZeroDivisionError when the
raw count is 0) and the text-shape ratios (ZeroDivisionError when the
text is empty — there is no empty-text special case), then runs the
adaptive phase.  `none` models a run whose loop exceeds `fuel`
iterations. -/
def truncateRun (o : Oracle) (text : List Char) (maxTokens : Nat) (m : String)
    (fuel : Nat) (cs0 : CounterState) :
    Option ((Except Err TruncResult) × CounterState × List (List Char)) :=
  match countTokensCached o text m cs0 with
  | (.error e, cs1) => some (.error e, cs1, [text])
  | (.ok fullRaw, cs1) =>
    match getMessageOverhead o m cs1 with
    | (.error e, cs2) => some (.error e, cs2, [text])
    | (.ok ov, cs2) =>
      let fullCount := (max 0 ((fullRaw : Int) - ov)).toNat
      if fullCount ≤ maxTokens then some (.ok ⟨text, 1, fullCount⟩, cs2, [text])
      else if fullRaw = 0 then some (.error .zeroDivisionError, cs2, [text])
      else if text.length = 0 then some (.error .zeroDivisionError, cs2, [text])
      else truncAdaptive o text maxTokens m fuel cs2 fullRaw

/-- Module-level `ttok4bedrock.count_tokens`: constructs a fresh
`BedrockTokenCounter` (default `cache_size=1000`) on every invocation. -/
def moduleCountTokens (o : Oracle) (text : List Char) (model : String) :
    Except Err Nat × CounterState :=
  count_tokens o text model (initState 1000)

/-- Module-level `ttok4bedrock.truncate`: likewise built on a fresh
counter instance per invocation. -/
def moduleTruncate (o : Oracle) (text : List Char) (maxTokens : Nat) (model : String)
    (fuel : Nat) : Option ((Except Err TruncResult) × CounterState × List (List Char)) :=
  truncateRun o text maxTokens model fuel (initState 1000)

/-- Outcome projection of a truncation run (drops instance state and
probe log). -/
def runOutcome (x : Option ((Except Err TruncResult) × CounterState × List (List Char))) :
    Option (Except Err TruncResult) := x.map (fun y => y.1)

/-- Issued-oracle-calls projection of a truncation run. -/
def runCalls (x : Option ((Except Err TruncResult) × CounterState × List (List Char))) :
    Option (List Key) := x.map (fun y => y.2.1.issuedKeys)

/-- Probe-log projection of a truncation run. -/
def runProbes (x : Option ((Except Err TruncResult) × CounterState × List (List Char))) :
    Option (List (List Char)) := x.map (fun y => y.2.2)

/-- A supported model id, used by the concrete scenarios below. -/
def mA : String := "anthropic.claude-3-5-haiku-20241022-v1:0"

/-- An unsupported model id. -/
def mBad : String := "gpt-4"

/-- A 64-character text (9 spaces, no punctuation, average word length
5.5), so all three heuristic multipliers stay at 1 and every float
computed on it by `truncate` is exact in IEEE double arithmetic. -/
def bigText : List Char := (List.replicate 9 (['a','a','a','a','a','a'] ++ [' '])).flatten ++ ['a']

/-- Oracle for the budget counterexample: full text raw 16 (so
`chars_per_token = 4`), the 32-char prefix corrected 10 and the 24-char
prefix corrected 6 around target 8, making the loop ping-pong with
jumps larger than the local-scan threshold until the budget check fails. -/
def o1 : Oracle :=
  ⟨fun t _ =>
    if t = ['A'] then some 1
    else if t.length = 64 then some 16
    else if t.length = 32 then some 10
    else if t.length = 24 then some 6
    else some 0⟩

/-- Oracle for the maximality counterexample: the 32-char prefix fits
(corrected 7 ≤ 8) but the 33-char prefix overshoots, so the widening
scan stops at once; verification then mismatches and the exhaustive
fallback restarts from length 1 and runs out of budget at length 16. -/
def o2 : Oracle :=
  ⟨fun t _ =>
    if t = ['A'] then some 1
    else if t.length = 64 then some 16
    else if t.length = 33 then some 9
    else if t.length = 32 then some 7
    else some 0⟩

/-- Oracle for the error-absorption counterexample: identical to `o2`
except that probing the 33-char prefix fails with a `ClientError`. -/
def o5 : Oracle :=
  ⟨fun t _ =>
    if t = ['A'] then some 1
    else if t.length = 64 then some 16
    else if t.length = 33 then none
    else if t.length = 32 then some 7
    else some 0⟩

/-- Oracle for the empty-text counterexample: raw count of the empty
text 1, probe `"A"` raw 2, so the corrected count of the empty text is
0. -/
def o6 : Oracle := ⟨fun t _ => if t = ['A'] then some 2 else some 1⟩

/-- Oracle for the no-feasible-prefix scenario: the first candidate
(32 chars) overshoots by exactly 1 token, so the shrinking local scan
runs on the empty recorded best and the loop exits with no best
prefix. -/
def o9 : Oracle :=
  ⟨fun t _ =>
    if t = ['A'] then some 1
    else if t.length = 64 then some 16
    else if t.length = 32 then some 9
    else some 0⟩

/-- Oracle counting one token per character, for the overhead-eviction
counterexample. -/
def oC8 : Oracle := ⟨fun t _ => some t.length⟩

/-- Oracle for the full-fit witnesses: raw count is length + 3, so the
overhead is 3 and corrected counts equal text length. -/
def oW : Oracle := ⟨fun t _ => some (t.length + 3)⟩

/-- Oracle that fails on every call, for the propagation witness. -/
def oFail : Oracle := ⟨fun _ _ => none⟩

/-- The probe log of the maximality counterexample run. -/
def probesC2 : List (List Char) :=
  [bigText, bigText.take 32, bigText.take 33, bigText.take 32] ++
    (List.range' 1 16).map (fun i => bigText.take i)

/-- The probe log of the error-absorption counterexample run. -/
def probesC5 : List (List Char) :=
  [bigText, bigText.take 32, bigText.take 33, bigText.take 32] ++
    (List.range' 1 17).map (fun i => bigText.take i)

/-- The loop state reached in the no-feasible-prefix scenario: two
reported calls, no recorded best prefix. -/
def ls9val : LoopSt :=
  ⟨2, 28, [], 0,
   ⟨1000, [((['A'], mA), 1), ((bigText.take 32, mA), 9)],
    [(bigText.take 32, mA), (['A'], mA)]⟩,
   [bigText, bigText.take 32]⟩

/-- A small text for the witness runs. -/
def wText : List Char := ['h', 'i']

/-- The instance state after the witness fast-path run of `truncate` on
`wText` with `oW`. -/
def wCs : CounterState :=
  ⟨1000, [((['A'], mA), 4), ((wText, mA), 5)], [(wText, mA), (['A'], mA)]⟩

deriving instance DecidableEq for Except

/-- Invariant of the recorded best prefix during truncation: either no
prefix has been recorded yet, or the best is a prefix of the text whose
corrected count was observed and is within target. -/
def BestInv (o : Oracle) (m : String) (text : List Char) (maxTokens : Nat)
    (b : List Char) (bc : Nat) : Prop :=
  b = [] ∨ ((∃ k, b = text.take k) ∧ cntPure o m b = some bc ∧ bc ≤ maxTokens)

/-- A fresh instance state is coherent. -/
theorem coherent_initState (o : Oracle) (n : Nat) : Coherent o (initState n) := by
  intro e he
  simp [initState] at he

/-- A successful cache lookup in a coherent entry list returns the
oracle's answer. -/
theorem lookupCache_sound {o : Oracle} {entries : List (Key × Nat)} {k : Key} {v : Nat}
    (hc : ∀ e ∈ entries, o.raw e.1.1 e.1.2 = some e.2)
    (h : lookupCache entries k = some v) : o.raw k.1 k.2 = some v := by
  unfold lookupCache at h
  rcases Option.map_eq_some'.mp h with ⟨e, hf, hv⟩
  have hmem := List.mem_of_find?_eq_some hf
  have hpred := List.find?_some hf
  simp only [decide_eq_true_eq] at hpred
  have hk : e.1 = k := hpred
  have hraw := hc e hmem
  rw [hk] at hraw
  rw [← hv]; exact hraw

/-- A successful cached count is the oracle's raw answer. -/
theorem countTokensCached_ok_sound {o : Oracle} {t : List Char} {m : String}
    {cs : CounterState} {v : Nat} (hc : Coherent o cs)
    (h : (countTokensCached o t m cs).1 = .ok v) : o.raw t m = some v := by
  unfold countTokensCached at h
  cases hl : lookupCache cs.entries (t, m) with
  | some w =>
    rw [hl] at h
    simp only [Except.ok.injEq] at h
    subst h
    exact lookupCache_sound hc hl
  | none =>
    rw [hl] at h
    unfold countTokensImpl at h
    by_cases hm : formatOk m
    · rw [if_pos hm] at h
      cases hr : o.raw t m with
      | some w => rw [hr] at h; simp only [Except.ok.injEq] at h; rw [h]
      | none => rw [hr] at h; simp at h
    · rw [if_neg hm] at h; simp at h

/-- The cached count preserves cache coherence. -/
theorem countTokensCached_coherent {o : Oracle} {t : List Char} {m : String}
    {cs : CounterState} (hc : Coherent o cs) :
    Coherent o (countTokensCached o t m cs).2 := by
  unfold countTokensCached
  cases hl : lookupCache cs.entries (t, m) with
  | some w =>
    intro e he
    simp only at he
    rcases List.mem_cons.mp he with h | h
    · subst h
      exact lookupCache_sound hc hl
    · exact hc e (List.mem_of_mem_filter h)
  | none =>
    unfold countTokensImpl
    by_cases hm : formatOk m
    · rw [if_pos hm]
      cases hr : o.raw t m with
      | some w =>
        intro e he
        simp only at he
        have := (List.take_sublist _ _).subset he
        rcases List.mem_cons.mp this with h | h
        · subst h; exact hr
        · exact hc e h
      | none => exact hc
    · rw [if_neg hm]; exact hc

/-- With a supported model and a coherent cache, the cached count is
fully determined by the oracle: the raw value on success, a
`ClientError` on oracle failure. -/
theorem countTokensCached_eval {o : Oracle} {t : List Char} {m : String}
    {cs : CounterState} (hc : Coherent o cs) (hm : formatOk m = true) :
    (countTokensCached o t m cs).1 =
      (match o.raw t m with
       | some v => Except.ok v
       | none => Except.error Err.clientError) := by
  unfold countTokensCached
  cases hl : lookupCache cs.entries (t, m) with
  | some w =>
    have := lookupCache_sound hc hl
    rw [this]
  | none =>
    unfold countTokensImpl
    rw [if_pos hm]
    cases hr : o.raw t m <;> simp

/-- A successful overhead computation comes from a successful oracle
answer on the probe `"A"` and equals that answer minus 1. -/
theorem getMessageOverhead_ok_sound {o : Oracle} {m : String} {cs : CounterState}
    {ov : Int} (hc : Coherent o cs) (h : (getMessageOverhead o m cs).1 = .ok ov) :
    ∃ ra : Nat, o.raw ['A'] m = some ra ∧ ov = (ra : Int) - 1 := by
  unfold getMessageOverhead at h
  rcases hcc : countTokensCached o ['A'] m cs with ⟨r, st'⟩
  rw [hcc] at h
  cases r with
  | ok ra =>
    simp only [Except.ok.injEq] at h
    exact ⟨ra, countTokensCached_ok_sound hc (by rw [hcc]), h.symm⟩
  | error e => simp at h

/-- The overhead computation preserves cache coherence. -/
theorem getMessageOverhead_coherent {o : Oracle} {m : String} {cs : CounterState}
    (hc : Coherent o cs) : Coherent o (getMessageOverhead o m cs).2 := by
  unfold getMessageOverhead
  have h2 := countTokensCached_coherent (t := ['A']) (m := m) hc
  rcases hcc : countTokensCached o ['A'] m cs with ⟨r, st'⟩
  rw [hcc] at h2
  cases r <;> exact h2

/-- With a supported model and a coherent cache, the overhead value is
determined by the oracle alone. -/
theorem getMessageOverhead_eval {o : Oracle} {m : String} {cs : CounterState} {ra : Nat}
    (hc : Coherent o cs) (hm : formatOk m = true) (ha : o.raw ['A'] m = some ra) :
    (getMessageOverhead o m cs).1 = .ok ((ra : Int) - 1) := by
  unfold getMessageOverhead
  have he := countTokensCached_eval (t := ['A']) hc hm
  rw [ha] at he
  rcases hcc : countTokensCached o ['A'] m cs with ⟨r, st'⟩
  rw [hcc] at he
  simp only at he
  subst he
  rfl

/-- A successful corrected count equals `cntPure` (oracle determinism
through the cache). -/
theorem count_tokens_ok_sound {o : Oracle} {t : List Char} {m : String}
    {cs : CounterState} {c : Nat} (hc : Coherent o cs)
    (h : (count_tokens o t m cs).1 = .ok c) : cntPure o m t = some c := by
  unfold count_tokens at h
  rcases hcc : countTokensCached o t m cs with ⟨r1, st1⟩
  rw [hcc] at h
  cases r1 with
  | error e => simp at h
  | ok rawC =>
    simp only at h
    have hraw : o.raw t m = some rawC := countTokensCached_ok_sound hc (by rw [hcc])
    have hc1 : Coherent o st1 := by
      have := countTokensCached_coherent (t := t) (m := m) hc
      rwa [hcc] at this
    rcases hov : getMessageOverhead o m st1 with ⟨r2, st2⟩
    rw [hov] at h
    cases r2 with
    | error e => simp at h
    | ok ov =>
      simp only [Except.ok.injEq] at h
      rcases getMessageOverhead_ok_sound hc1 (by rw [hov]) with ⟨ra, hA, hv⟩
      unfold cntPure
      rw [hraw, hA, ← h, hv]

/-- The corrected count preserves cache coherence. -/
theorem count_tokens_coherent {o : Oracle} {t : List Char} {m : String}
    {cs : CounterState} (hc : Coherent o cs) :
    Coherent o (count_tokens o t m cs).2 := by
  unfold count_tokens
  have hc1 := countTokensCached_coherent (t := t) (m := m) hc
  rcases hcc : countTokensCached o t m cs with ⟨r1, st1⟩
  rw [hcc] at hc1
  cases r1 with
  | error e => exact hc1
  | ok rawC =>
    simp only
    have hc2 := getMessageOverhead_coherent (m := m) hc1
    rcases hov : getMessageOverhead o m st1 with ⟨r2, st2⟩
    rw [hov] at hc2
    cases r2 <;> exact hc2

/-- With a supported model and a coherent cache, the corrected count is
fully determined by the oracle: `cntPure` on success, a `ClientError`
when either oracle answer fails. -/
theorem count_tokens_eval {o : Oracle} {t : List Char} {m : String} {cs : CounterState}
    (hc : Coherent o cs) (hm : formatOk m = true) :
    (count_tokens o t m cs).1 =
      (match cntPure o m t with
       | some c => Except.ok c
       | none => Except.error Err.clientError) := by
  unfold count_tokens
  have he1 := countTokensCached_eval (t := t) hc hm
  have hc1 := countTokensCached_coherent (t := t) (m := m) hc
  rcases hcc : countTokensCached o t m cs with ⟨r1, st1⟩
  rw [hcc] at he1 hc1
  simp only at he1 hc1
  cases hr : o.raw t m with
  | none =>
    rw [hr] at he1
    simp only at he1
    subst he1
    unfold cntPure
    rw [hr]
  | some rawC =>
    rw [hr] at he1
    simp only at he1
    subst he1
    simp only
    cases hA : o.raw ['A'] m with
    | none =>
      have he2 := countTokensCached_eval (t := ['A']) hc1 hm
      rw [hA] at he2
      unfold getMessageOverhead
      rcases hcc2 : countTokensCached o ['A'] m st1 with ⟨r2, st2⟩
      rw [hcc2] at he2
      simp only at he2
      subst he2
      unfold cntPure
      rw [hr, hA]
    | some ra =>
      have he2 := getMessageOverhead_eval hc1 hm hA
      rcases hov : getMessageOverhead o m st1 with ⟨r2, st2⟩
      rw [hov] at he2
      simp only at he2
      subst he2
      unfold cntPure
      rw [hr, hA]

/-- Taking as many characters as a previous take took yields the same
list (so re-probing `text[:len(best_text)]` re-probes `best_text`). -/
theorem take_len_take {α : Type} (l : List α) (k : Nat) :
    l.take ((l.take k).length) = l.take k := by
  rw [List.length_take, ← List.take_take, List.take_length]

/-- Unfolding of the shrinking scan's index list
`range(len(best_text), 0, -1)`. -/
theorem shrinkIdxs_succ (b : Nat) :
    (List.range' 1 (b + 1)).reverse = (b + 1) :: (List.range' 1 b).reverse := by
  rw [List.range'_concat]
  simp [Nat.add_comm]

/-- The widening local scan preserves coherence and the best-prefix
invariant, and consumes at most one reported call per scanned index. -/
theorem widenScan_inv {o : Oracle} {m : String} {text : List Char} {maxTokens : Nat} :
    ∀ (idxs : List Nat) (s w : LoopSt), Coherent o s.cs →
      BestInv o m text maxTokens s.best s.bestCount →
      widenScan o m text maxTokens idxs s = .ok w →
      Coherent o w.cs ∧ BestInv o m text maxTokens w.best w.bestCount ∧
        w.apiCalls ≤ s.apiCalls + idxs.length := by
  intro idxs
  induction idxs with
  | nil =>
    intro s w hc hb h
    simp only [widenScan] at h
    cases h
    exact ⟨hc, hb, Nat.le_refl _⟩
  | cons i rest ih =>
    intro s w hc hb h
    simp only [widenScan] at h
    rcases hp : count_tokens o (text.take (i + 1)) m s.cs with ⟨r, cs'⟩
    rw [hp] at h
    have hcoh' : Coherent o cs' := by
      have := count_tokens_coherent (t := text.take (i + 1)) (m := m) hc
      rwa [hp] at this
    cases r with
    | ok c =>
      simp only at h
      by_cases hle : c ≤ maxTokens
      · rw [if_pos hle] at h
        by_cases heq : c = maxTokens
        · rw [if_pos heq] at h
          cases h
          refine ⟨hcoh', Or.inr ⟨⟨i + 1, rfl⟩, ?_, hle⟩, ?_⟩
          · exact count_tokens_ok_sound hc (by rw [hp])
          · simp only [List.length_cons]; omega
        · rw [if_neg heq] at h
          have hrec := ih _ w hcoh'
            (Or.inr ⟨⟨i + 1, rfl⟩, count_tokens_ok_sound hc (by rw [hp]), hle⟩) h
          refine ⟨hrec.1, hrec.2.1, ?_⟩
          have := hrec.2.2
          simp only [List.length_cons] at *
          omega
      · rw [if_neg hle] at h
        cases h
        exact ⟨hcoh', hb, by simp only [List.length_cons]; omega⟩
    | error e =>
      cases e with
      | clientError =>
        simp only at h
        cases h
        exact ⟨hcoh', hb, by simp only [List.length_cons]; omega⟩
      | valueError => simp at h
      | zeroDivisionError => simp at h

/-- The shrinking local scan re-probes the recorded best prefix first,
whose count is already within target, so it stops after at most one
probe; coherence and the best-prefix invariant are preserved. -/
theorem shrinkScan_inv {o : Oracle} {m : String} {text : List Char} {maxTokens : Nat}
    (idxs : List Nat) (s w : LoopSt)
    (h : shrinkScan o m text maxTokens idxs s = .ok w)
    (hi : idxs = (List.range' 1 s.best.length).reverse)
    (hc : Coherent o s.cs)
    (hb : BestInv o m text maxTokens s.best s.bestCount) :
    Coherent o w.cs ∧ BestInv o m text maxTokens w.best w.bestCount ∧
      w.apiCalls ≤ s.apiCalls + 1 := by
  subst hi
  cases hbl : s.best.length with
  | zero =>
    have hnil : s.best = [] := List.length_eq_zero.mp hbl
    rw [hbl] at h
    simp only [List.range'_zero, List.reverse_nil, shrinkScan] at h
    cases h
    exact ⟨hc, hb, by omega⟩
  | succ b =>
    rcases hb with hnil | ⟨⟨k, hk⟩, hcnt, hle⟩
    · rw [hnil] at hbl; simp at hbl
    · rw [hbl, shrinkIdxs_succ] at h
      simp only [shrinkScan] at h
      have htt : text.take (b + 1) = s.best := by
        rw [← hbl, hk, take_len_take]
      rw [htt] at h
      rcases hp : count_tokens o s.best m s.cs with ⟨r, cs'⟩
      rw [hp] at h
      have hcoh' : Coherent o cs' := by
        have := count_tokens_coherent (t := s.best) (m := m) hc
        rwa [hp] at this
      cases r with
      | ok c =>
        have hcval : cntPure o m s.best = some c :=
          count_tokens_ok_sound hc (by rw [hp])
        have hceq : c = s.bestCount := by
          rw [hcnt] at hcval
          exact (Option.some.inj hcval).symm
        simp only at h
        rw [if_pos (by rw [hceq]; exact hle)] at h
        cases h
        exact ⟨hcoh', Or.inr ⟨⟨k, hk⟩, hcval, hceq.le.trans hle⟩, Nat.le_refl _⟩
      | error e =>
        cases e with
        | clientError =>
          simp only at h
          cases h
          exact ⟨hcoh', Or.inr ⟨⟨k, hk⟩, hcnt, hle⟩, Nat.le_succ _⟩
        | valueError => simp at h
        | zeroDivisionError => simp at h

/-- Main loop invariant: starting from a coherent state with a valid
best prefix and at most 20 reported calls, a normally terminating
adaptive loop ends coherent, with a valid best prefix, and with at most
35 reported calls (at most 19 at the final head check, plus the probe
of that iteration, plus at most 15 widening-scan probes). -/
theorem truncLoop_inv {o : Oracle} {m : String} {text : List Char} {maxTokens : Nat}
    {cpt : Frac} :
    ∀ (fuel : Nat) (s ls : LoopSt), Coherent o s.cs →
      BestInv o m text maxTokens s.best s.bestCount → s.apiCalls ≤ 20 →
      truncLoop o m text maxTokens cpt fuel s = some (.ok ls) →
      Coherent o ls.cs ∧ BestInv o m text maxTokens ls.best ls.bestCount ∧
        ls.apiCalls ≤ 35 := by
  intro fuel
  induction fuel with
  | zero =>
    intro s ls _ _ _ h
    simp [truncLoop] at h
  | succ f ih =>
    intro s ls hc hb ha h
    simp only [truncLoop] at h
    by_cases hlt : s.apiCalls < 20
    · rw [if_pos hlt] at h
      rcases hp : count_tokens o (text.take s.targetChars) m s.cs with ⟨r, cs'⟩
      rw [hp] at h
      have hcoh' : Coherent o cs' := by
        have := count_tokens_coherent (t := text.take s.targetChars) (m := m) hc
        rwa [hp] at this
      have hsound : ∀ c, r = .ok c → cntPure o m (text.take s.targetChars) = some c := by
        intro c hr
        exact count_tokens_ok_sound hc (by rw [hp, hr])
      cases r with
      | ok c =>
        simp only at h
        by_cases heq : c = maxTokens
        · rw [if_pos heq] at h
          cases h
          refine ⟨hcoh', Or.inr ⟨⟨s.targetChars, rfl⟩, hsound c rfl, heq.le⟩, ?_⟩
          show s.apiCalls + 1 ≤ 35
          omega
        · rw [if_neg heq] at h
          by_cases hclt : c < maxTokens
          · rw [if_pos hclt] at h
            by_cases hadd : ffloorNat (fscale (maxTokens - c) cpt) ≤ 5
            · rw [if_pos hadd] at h
              cases hw : widenScan o m text maxTokens
                  (List.range' (text.take s.targetChars).length
                    (min ((text.take s.targetChars).length + 15) text.length -
                      (text.take s.targetChars).length))
                  { apiCalls := s.apiCalls + 1,
                    targetChars :=
                      min (s.targetChars + ffloorNat (fscale (maxTokens - c) cpt))
                        text.length,
                    best := text.take s.targetChars, bestCount := c, cs := cs',
                    probes := s.probes ++ [text.take s.targetChars] } with
              | error e =>
                rw [hw] at h
                simp at h
              | ok w =>
                rw [hw] at h
                simp only [Option.some.injEq, Except.ok.injEq] at h
                subst h
                have hinv := widenScan_inv _ _ _ hcoh'
                  (Or.inr ⟨⟨s.targetChars, rfl⟩, hsound c rfl, hclt.le⟩) hw
                refine ⟨hinv.1, hinv.2.1, ?_⟩
                have hlen := hinv.2.2
                rw [List.length_range'] at hlen
                have hm15 : min ((text.take s.targetChars).length + 15) text.length ≤
                    (text.take s.targetChars).length + 15 := Nat.min_le_left _ _
                simp only at hlen
                omega
            · rw [if_neg hadd] at h
              refine ih _ _ ?_ ?_ ?_ h
              · exact hcoh'
              · exact Or.inr ⟨⟨s.targetChars, rfl⟩, hsound c rfl, hclt.le⟩
              · show s.apiCalls + 1 ≤ 20
                omega
          · rw [if_neg hclt] at h
            by_cases hrem : ffloorNat (fscale (c - maxTokens) cpt) ≤ 5
            · rw [if_pos hrem] at h
              cases hw : shrinkScan o m text maxTokens
                  ((List.range' 1 s.best.length).reverse)
                  { apiCalls := s.apiCalls + 1,
                    targetChars :=
                      max (s.targetChars - ffloorNat (fscale (c - maxTokens) cpt)) 1,
                    best := s.best, bestCount := s.bestCount, cs := cs',
                    probes := s.probes ++ [text.take s.targetChars] } with
              | error e =>
                rw [hw] at h
                simp at h
              | ok w =>
                rw [hw] at h
                simp only [Option.some.injEq, Except.ok.injEq] at h
                subst h
                have hinv := shrinkScan_inv _ _ _ hw rfl hcoh' hb
                refine ⟨hinv.1, hinv.2.1, ?_⟩
                have := hinv.2.2
                simp only at this
                omega
            · rw [if_neg hrem] at h
              refine ih _ _ ?_ ?_ ?_ h
              · exact hcoh'
              · exact hb
              · show s.apiCalls + 1 ≤ 20
                omega
      | error e =>
        cases e with
        | clientError =>
          simp only at h
          refine ih _ _ ?_ ?_ ?_ h
          · exact hcoh'
          · exact hb
          · show s.apiCalls ≤ 20
            omega
        | valueError => simp at h
        | zeroDivisionError => simp at h
    · rw [if_neg hlt] at h
      cases h
      exact ⟨hc, hb, by omega⟩

/-- The exhaustive fallback preserves coherence and keeps a feasible
best prefix; the pre-probe budget check keeps its reported calls at or
below 20. -/
theorem exhaustiveScan_inv {o : Oracle} {m : String} {text : List Char} {maxTokens : Nat} :
    ∀ (idxs : List Nat) (s w : FinSt),
      exhaustiveScan o m text maxTokens idxs s = .ok w →
      Coherent o s.cs → (∃ k, s.best = text.take k) →
      cntPure o m s.best = some s.final → s.final ≤ maxTokens → s.apiCalls ≤ 20 →
      Coherent o w.cs ∧ (∃ k, w.best = text.take k) ∧
        cntPure o m w.best = some w.final ∧ w.final ≤ maxTokens ∧ w.apiCalls ≤ 20 := by
  intro idxs
  induction idxs with
  | nil =>
    intro s w h hc hk hcnt hle ha
    simp only [exhaustiveScan] at h
    cases h
    exact ⟨hc, hk, hcnt, hle, ha⟩
  | cons i rest ih =>
    intro s w h hc hk hcnt hle ha
    simp only [exhaustiveScan] at h
    by_cases hstop : 20 ≤ s.apiCalls
    · rw [if_pos hstop] at h
      cases h
      exact ⟨hc, hk, hcnt, hle, ha⟩
    · rw [if_neg hstop] at h
      rcases hp : count_tokens o (text.take i) m s.cs with ⟨r, cs'⟩
      rw [hp] at h
      have hcoh' : Coherent o cs' := by
        have := count_tokens_coherent (t := text.take i) (m := m) hc
        rwa [hp] at this
      cases r with
      | ok c =>
        simp only at h
        by_cases heq : c = maxTokens
        · rw [if_pos heq] at h
          cases h
          refine ⟨hcoh', ⟨i, rfl⟩, count_tokens_ok_sound hc (by rw [hp]), heq.le, ?_⟩
          show s.apiCalls + 1 ≤ 20
          omega
        · rw [if_neg heq] at h
          by_cases hclt : c < maxTokens
          · rw [if_pos hclt] at h
            refine ih _ _ h ?_ ?_ ?_ ?_ ?_
            · exact hcoh'
            · exact ⟨i, rfl⟩
            · exact count_tokens_ok_sound hc (by rw [hp])
            · exact hclt.le
            · show s.apiCalls + 1 ≤ 20
              omega
          · rw [if_neg hclt] at h
            refine ih _ _ h ?_ ?_ ?_ ?_ ?_
            · exact hcoh'
            · exact hk
            · exact hcnt
            · exact hle
            · show s.apiCalls + 1 ≤ 20
              omega
      | error e => simp at h

/-- Verification and fallback: a normally terminating finish phase
returns either the empty text or a prefix of the text whose corrected
count was observed within target, with at most 36 reported calls. -/
theorem truncFinish_inv {o : Oracle} {m : String} {text : List Char} {maxTokens : Nat}
    (ls : LoopSt) (r : TruncResult) (cs : CounterState) (ps : List (List Char))
    (h : truncFinish o m text maxTokens ls = .ok (r, cs, ps))
    (hc : Coherent o ls.cs) (hb : BestInv o m text maxTokens ls.best ls.bestCount)
    (ha : ls.apiCalls ≤ 35) :
    (r.result = [] ∨ ((∃ k, r.result = text.take k) ∧
      ∃ c, cntPure o m r.result = some c ∧ c ≤ maxTokens)) ∧ r.apiCalls ≤ 36 := by
  unfold truncFinish at h
  by_cases hnil : ls.best = []
  · rw [if_pos hnil] at h
    cases h
    refine ⟨Or.inl hnil, ?_⟩
    show ls.apiCalls ≤ 36
    omega
  · rw [if_neg hnil] at h
    rcases hb with hb | ⟨⟨k, hk⟩, hcnt, hle⟩
    · exact absurd hb hnil
    rcases hp : count_tokens o ls.best m ls.cs with ⟨rr, cs'⟩
    rw [hp] at h
    cases rr with
    | error e => simp at h
    | ok fc =>
      simp only at h
      have hcoh' : Coherent o cs' := by
        have := count_tokens_coherent (t := ls.best) (m := m) hc
        rwa [hp] at this
      have hfc : cntPure o m ls.best = some fc := count_tokens_ok_sound hc (by rw [hp])
      have hfcb : fc = ls.bestCount := by
        have h2 := hfc
        rw [hcnt] at h2
        exact (Option.some.inj h2).symm
      have hfcle : fc ≤ maxTokens := hfcb.le.trans hle
      by_cases hcond : fc ≠ maxTokens ∧ ls.apiCalls + 1 < 20
      · rw [if_pos hcond] at h
        cases hes : exhaustiveScan o m text maxTokens (List.range' 1 text.length)
            ⟨ls.apiCalls + 1, ls.best, fc, cs', ls.probes ++ [ls.best]⟩ with
        | error e => rw [hes] at h; simp at h
        | ok fs =>
          rw [hes] at h
          cases h
          have hinv := exhaustiveScan_inv _ _ _ hes hcoh' ⟨k, hk⟩ hfc hfcle
            (by show ls.apiCalls + 1 ≤ 20; omega)
          refine ⟨Or.inr ⟨hinv.2.1, ⟨fs.final, hinv.2.2.1, hinv.2.2.2.1⟩⟩, ?_⟩
          have := hinv.2.2.2.2
          show fs.apiCalls ≤ 36
          omega
      · rw [if_neg hcond] at h
        cases h
        refine ⟨Or.inr ⟨⟨k, hk⟩, ⟨fc, hfc, hfcle⟩⟩, ?_⟩
        show ls.apiCalls + 1 ≤ 36
        omega

/-- Full-run invariant: a successful `truncate` run from a coherent
state returns either the empty text or a prefix of the input whose
corrected count is within target, and reports at most 36 calls. -/
theorem truncateRun_ok_inv {o : Oracle} {text : List Char} {maxTokens : Nat} {m : String}
    {fuel : Nat} {cs0 : CounterState} {r : TruncResult} {cs : CounterState}
    {ps : List (List Char)}
    (h : truncateRun o text maxTokens m fuel cs0 = some (.ok r, cs, ps))
    (hc : Coherent o cs0) :
    (r.result = [] ∨ ((∃ k, r.result = text.take k) ∧
      ∃ c, cntPure o m r.result = some c ∧ c ≤ maxTokens)) ∧ r.apiCalls ≤ 36 := by
  unfold truncateRun at h
  rcases hcc : countTokensCached o text m cs0 with ⟨r1, cs1⟩
  rw [hcc] at h
  cases r1 with
  | error e => simp at h
  | ok fullRaw =>
    simp only at h
    have hraw : o.raw text m = some fullRaw := countTokensCached_ok_sound hc (by rw [hcc])
    have hc1 : Coherent o cs1 := by
      have := countTokensCached_coherent (t := text) (m := m) hc
      rwa [hcc] at this
    rcases hov : getMessageOverhead o m cs1 with ⟨r2, cs2⟩
    rw [hov] at h
    cases r2 with
    | error e => simp at h
    | ok ov =>
      simp only at h
      rcases getMessageOverhead_ok_sound hc1 (by rw [hov]) with ⟨ra, hA, hove⟩
      have hc2 : Coherent o cs2 := by
        have := getMessageOverhead_coherent (m := m) hc1
        rwa [hov] at this
      have hcp : cntPure o m text = some (max 0 ((fullRaw : Int) - ov)).toNat := by
        unfold cntPure
        rw [hraw, hA, hove]
      by_cases hfit : (max 0 ((fullRaw : Int) - ov)).toNat ≤ maxTokens
      · rw [if_pos hfit] at h
        cases h
        exact ⟨Or.inr ⟨⟨text.length, (List.take_length text).symm⟩,
          ⟨(max 0 ((fullRaw : Int) - ov)).toNat, hcp, hfit⟩⟩,
          by show (1 : Nat) ≤ 36; omega⟩
      · rw [if_neg hfit] at h
        by_cases h0 : fullRaw = 0
        · rw [if_pos h0] at h
          simp at h
        · rw [if_neg h0] at h
          by_cases hl0 : text.length = 0
          · rw [if_pos hl0] at h
            simp at h
          · rw [if_neg hl0] at h
            unfold truncAdaptive at h
            cases hl : truncLoop o m text maxTokens (cptOf text fullRaw) fuel
                (initLoop text maxTokens fullRaw cs2) with
            | none => rw [hl] at h; simp at h
            | some res =>
              rw [hl] at h
              cases res with
              | error epc =>
                rcases epc with ⟨e, ecs, eps⟩
                simp at h
              | ok ls =>
                simp only at h
                have hloop := truncLoop_inv fuel _ ls hc2 (Or.inl rfl)
                  (by show (1 : Nat) ≤ 20; omega) hl
                cases hf : truncFinish o m text maxTokens ls with
                | error epc =>
                  rcases epc with ⟨e, ecs, eps⟩
                  rw [hf] at h
                  simp at h
                | ok rcp =>
                  rcases rcp with ⟨r', cs', ps'⟩
                  rw [hf] at h
                  simp only [Option.some.injEq, Prod.mk.injEq, Except.ok.injEq] at h
                  obtain ⟨hr, hcs, hps⟩ := h
                  subst hr
                  exact truncFinish_inv ls _ _ _ hf hloop.1 hloop.2.1 hloop.2.2

/-- Fast path of `truncate`: with a supported model, a coherent state
and successful oracle answers, a corrected full count within target
returns the full text with exactly one reported call. -/
theorem truncateRun_fastpath {o : Oracle} {t : List Char} {M : Nat} {m : String}
    {fuel : Nat} {cs0 : CounterState} {rt ra : Nat}
    (hm : formatOk m = true) (hc : Coherent o cs0)
    (ht : o.raw t m = some rt) (ha : o.raw ['A'] m = some ra)
    (hfit : (max 0 ((rt : Int) - ((ra : Int) - 1))).toNat ≤ M) :
    runOutcome (truncateRun o t M m fuel cs0) =
      some (.ok ⟨t, 1, (max 0 ((rt : Int) - ((ra : Int) - 1))).toNat⟩) := by
  unfold truncateRun runOutcome
  have he1 := countTokensCached_eval (t := t) hc hm
  rw [ht] at he1
  rcases hcc : countTokensCached o t m cs0 with ⟨r1, cs1⟩
  rw [hcc] at he1
  simp only at he1
  subst he1
  simp only
  have hc1 : Coherent o cs1 := by
    have := countTokensCached_coherent (t := t) (m := m) hc
    rwa [hcc] at this
  have he2 := getMessageOverhead_eval hc1 hm ha
  rcases hov : getMessageOverhead o m cs1 with ⟨r2, cs2⟩
  rw [hov] at he2
  simp only at he2
  subst he2
  simp only
  rw [if_pos hfit]
  rfl

/-- C1 (amended): a successful `truncate` run reports at most 36 calls
in its metadata — not 20: the budget is only checked at the loop head
and before each exhaustive-fallback probe, while the widening local
scan (up to 15 probes) and the verification probe run beyond it. -/
theorem claim1_calls_upper_bound (o : Oracle) (text : List Char) (maxTokens : Nat)
    (m : String) (fuel : Nat) (cs0 : CounterState) (r : TruncResult)
    (cs : CounterState) (ps : List (List Char)) (hc : Coherent o cs0)
    (h : truncateRun o text maxTokens m fuel cs0 = some (.ok r, cs, ps)) :
    r.apiCalls ≤ 36 :=
  (truncateRun_ok_inv h hc).2

/-- C2 (amended): a successful `truncate` run returns the empty text or
a prefix of the input whose corrected count was observed to be within
target — but not necessarily the longest probed feasible prefix. -/
theorem claim2_result_feasible (o : Oracle) (text : List Char) (maxTokens : Nat)
    (m : String) (fuel : Nat) (cs0 : CounterState) (r : TruncResult)
    (cs : CounterState) (ps : List (List Char)) (hc : Coherent o cs0)
    (h : truncateRun o text maxTokens m fuel cs0 = some (.ok r, cs, ps)) :
    r.result = [] ∨ ((∃ k, r.result = text.take k) ∧
      ∃ c, cntPure o m r.result = some c ∧ c ≤ maxTokens) :=
  (truncateRun_ok_inv h hc).1

/-- C3: for every text, supported model and target at least the
corrected count of the text, `truncate` returns the text unchanged and
reports exactly 1 oracle call in its metadata. -/
theorem claim3_full_fit (o : Oracle) (t : List Char) (M : Nat) (m : String)
    (fuel : Nat) (cs0 : CounterState) (rt ra : Nat)
    (hm : formatOk m = true) (hc : Coherent o cs0)
    (ht : o.raw t m = some rt) (ha : o.raw ['A'] m = some ra)
    (hfit : (max 0 ((rt : Int) - ((ra : Int) - 1))).toNat ≤ M) :
    runOutcome (truncateRun o t M m fuel cs0) =
      some (.ok ⟨t, 1, (max 0 ((rt : Int) - ((ra : Int) - 1))).toNat⟩) :=
  truncateRun_fastpath hm hc ht ha hfit

/-- C4: for every text and supported model, `count_tokens` returns
`max(0, rawCount(text) − overhead)` with
`overhead = rawCount("A") − 1`. -/
theorem claim4_corrected_count_formula (o : Oracle) (t : List Char) (m : String)
    (cs0 : CounterState) (rt ra : Nat)
    (hm : formatOk m = true) (hc : Coherent o cs0)
    (ht : o.raw t m = some rt) (ha : o.raw ['A'] m = some ra) :
    (count_tokens o t m cs0).1 = .ok (max 0 ((rt : Int) - ((ra : Int) - 1))).toNat := by
  rw [count_tokens_eval hc hm]
  unfold cntPure
  rw [ht, ha]

/-- C5 (amended, propagation part): an oracle failure on the fast-path
probe of `truncate` is not caught and propagates as the client error. -/
theorem claim5_fastpath_error_propagates (o : Oracle) (t : List Char) (M : Nat)
    (m : String) (fuel : Nat) (cs0 : CounterState)
    (hm : formatOk m = true) (hc : Coherent o cs0) (hfail : o.raw t m = none) :
    runOutcome (truncateRun o t M m fuel cs0) = some (.error .clientError) := by
  unfold truncateRun runOutcome
  have he1 := countTokensCached_eval (t := t) hc hm
  rw [hfail] at he1
  rcases hcc : countTokensCached o t m cs0 with ⟨r1, cs1⟩
  rw [hcc] at he1
  simp only at he1
  subst he1
  rfl

/-- C6 (amended): `truncate` on the empty text whose corrected count is
within target returns the empty text with exactly 1 reported call — not
0: there is no empty-text special case in the code. -/
theorem claim6_empty_text_one_call (o : Oracle) (M : Nat) (m : String)
    (fuel : Nat) (cs0 : CounterState) (rt ra : Nat)
    (hm : formatOk m = true) (hc : Coherent o cs0)
    (ht : o.raw [] m = some rt) (ha : o.raw ['A'] m = some ra)
    (hfit : (max 0 ((rt : Int) - ((ra : Int) - 1))).toNat ≤ M) :
    runOutcome (truncateRun o [] M m fuel cs0) =
      some (.ok ⟨[], 1, (max 0 ((rt : Int) - ((ra : Int) - 1))).toNat⟩) :=
  truncateRun_fastpath hm hc ht ha hfit

/-- C7: with a model outside the supported set, both `count_tokens` and
`truncate` fail with the configuration `ValueError` on a fresh instance,
leaving the state unchanged — in particular no oracle call is issued. -/
theorem claim7_unsupported_model_fails_fast (o : Oracle) (t : List Char) (M : Nat)
    (m : String) (fuel n : Nat) (hm : formatOk m = false) :
    count_tokens o t m (initState n) = (.error .valueError, initState n) ∧
    truncateRun o t M m fuel (initState n) =
      some (.error .valueError, initState n, [t]) ∧
    (initState n).issuedKeys = [] := by
  refine ⟨?_, ?_, rfl⟩
  · simp [count_tokens, countTokensCached, lookupCache, countTokensImpl, initState, hm]
  · simp [truncateRun, countTokensCached, lookupCache, countTokensImpl, initState, hm]

/-- C8 (amended, stability part): the overhead value used is determined
by the oracle alone — `rawCount("A") − 1` — identically across all
calls on an instance, whatever its cache state. -/
theorem claim8_overhead_value_stable (o : Oracle) (m : String) (cs : CounterState)
    (ra : Nat) (hm : formatOk m = true) (hc : Coherent o cs)
    (ha : o.raw ['A'] m = some ra) :
    (getMessageOverhead o m cs).1 = .ok ((ra : Int) - 1) :=
  getMessageOverhead_eval hc hm ha

/-- C9: when the adaptive loop ends without recording any feasible
prefix, `truncate` returns the empty text with `final_token_count = 0`,
issuing no verification probe and no exhaustive fallback — regardless
of the empty text's actual corrected count. -/
theorem claim9_no_feasible_returns_empty (o : Oracle) (text : List Char)
    (maxTokens : Nat) (m : String) (fuel : Nat) (cs2 : CounterState) (fullRaw : Nat)
    (ls : LoopSt)
    (h : truncLoop o m text maxTokens (cptOf text fullRaw) fuel
      (initLoop text maxTokens fullRaw cs2) = some (.ok ls))
    (hb : ls.best = []) :
    truncAdaptive o text maxTokens m fuel cs2 fullRaw =
      some (.ok ⟨[], ls.apiCalls, 0⟩, ls.cs, ls.probes) := by
  unfold truncAdaptive
  rw [h]
  simp [truncFinish, hb]

/-- C10: the module-level functions build a fresh counter per
invocation, so every module-level `count_tokens` issues the text call
and a fresh overhead probe (the same issued-call list on every repeat),
whereas a second call on the same instance hits the warm cache and
issues no further oracle call. -/
theorem claim10_module_level_fresh (o : Oracle) (t : List Char) (m : String) (rt ra : Nat)
    (hm : formatOk m = true) (ht : o.raw t m = some rt) (ha : o.raw ['A'] m = some ra)
    (hne : t ≠ ['A']) :
    (moduleCountTokens o t m).2.issuedKeys = [(t, m), (['A'], m)] ∧
    (count_tokens o t m (moduleCountTokens o t m).2).2.issuedKeys =
      (moduleCountTokens o t m).2.issuedKeys := by
  have hne' : ['A'] ≠ t := Ne.symm hne
  constructor
  · simp [moduleCountTokens, count_tokens, countTokensCached, lookupCache, countTokensImpl,
      getMessageOverhead, initState, hm, ht, ha, hne, hne', List.find?]
  · simp [moduleCountTokens, count_tokens, countTokensCached, lookupCache, countTokensImpl,
      getMessageOverhead, initState, hm, ht, ha, hne, hne', List.find?]

/-- Counterexample to C1 as stated: with oracle `o1` (corrected counts
16 for the full 64-char text, 10 at 32 chars, 6 at 24 chars) and target
8, the loop ping-pongs between 32 and 24 characters until the budget
check fails at 20 reported calls, and the unguarded verification probe
then raises the metadata to `callsUsed = 21 > 20`. -/
theorem claim1_counterexample :
    runOutcome (truncateRun o1 bigText 8 mA 25 (initState 1000)) =
      some (.ok ⟨bigText.take 24, 21, 6⟩) ∧ ¬((21 : Nat) ≤ 20) := by decide

/-- Witness for C1 (amended): a concrete successful run to which the
36-call bound applies. -/
theorem claim1_witness :
    truncateRun oW wText 7 mA 3 (initState 1000) =
      some (.ok ⟨wText, 1, 2⟩, wCs, [wText]) ∧
    (⟨wText, 1, 2⟩ : TruncResult).apiCalls ≤ 36 :=
  ⟨by decide,
    claim1_calls_upper_bound oW wText 7 mA 3 (initState 1000) ⟨wText, 1, 2⟩ wCs [wText]
      (coherent_initState oW 1000) (by decide)⟩

/-- Counterexample to C2 as stated: with oracle `o2` and target 8, the
32-char prefix is probed with corrected count 7 ≤ 8, but verification
mismatches, the exhaustive fallback restarts from length 1 and exhausts
the budget at length 16 — so the returned prefix (16 chars) is shorter
than the probed feasible 32-char prefix. -/
theorem claim2_counterexample :
    runOutcome (truncateRun o2 bigText 8 mA 25 (initState 1000)) =
      some (.ok ⟨bigText.take 16, 20, 0⟩) ∧
    runProbes (truncateRun o2 bigText 8 mA 25 (initState 1000)) = some probesC2 ∧
    bigText.take 32 ∈ probesC2 ∧
    cntPure o2 mA (bigText.take 32) = some 7 ∧ (7 : Nat) ≤ 8 ∧
    (bigText.take 16).length < (bigText.take 32).length := by decide

/-- Witness for C2 (amended): a concrete successful run whose result is
a feasible prefix. -/
theorem claim2_witness :
    truncateRun oW wText 7 mA 3 (initState 1000) =
      some (.ok ⟨wText, 1, 2⟩, wCs, [wText]) ∧
    ((⟨wText, 1, 2⟩ : TruncResult).result = [] ∨
      ((∃ k, (⟨wText, 1, 2⟩ : TruncResult).result = wText.take k) ∧
        ∃ c, cntPure oW mA (⟨wText, 1, 2⟩ : TruncResult).result = some c ∧ c ≤ 7)) :=
  ⟨by decide,
    claim2_result_feasible oW wText 7 mA 3 (initState 1000) ⟨wText, 1, 2⟩ wCs [wText]
      (coherent_initState oW 1000) (by decide)⟩

/-- Witness for C3: corrected count 2 against target 7 returns the full
text with one reported call. -/
theorem claim3_witness :
    (max 0 ((5 : Int) - ((4 : Int) - 1))).toNat ≤ 7 ∧
    runOutcome (truncateRun oW wText 7 mA 3 (initState 1000)) =
      some (.ok ⟨wText, 1, (max 0 ((5 : Int) - ((4 : Int) - 1))).toNat⟩) :=
  ⟨by decide,
    claim3_full_fit oW wText 7 mA 3 (initState 1000) 5 4 (by decide)
      (coherent_initState oW 1000) (by decide) (by decide) (by decide)⟩

/-- Witness for C4: raw count 5, probe raw count 4, corrected count
`max(0, 5 − (4 − 1)) = 2`. -/
theorem claim4_witness :
    (count_tokens oW wText mA (initState 1000)).1 =
      .ok (max 0 ((5 : Int) - ((4 : Int) - 1))).toNat :=
  claim4_corrected_count_formula oW wText mA (initState 1000) 5 4 (by decide)
    (coherent_initState oW 1000) (by decide) (by decide)

/-- Counterexample to C5 as stated: with oracle `o5`, the widening
local scan's probe of the 33-char prefix fails with a `ClientError`,
yet `truncate` absorbs it and returns successfully — the failure is not
propagated even though it did not occur on the shrink path. -/
theorem claim5_counterexample :
    runOutcome (truncateRun o5 bigText 8 mA 25 (initState 1000)) =
      some (.ok ⟨bigText.take 17, 20, 0⟩) ∧
    runProbes (truncateRun o5 bigText 8 mA 25 (initState 1000)) = some probesC5 ∧
    bigText.take 33 ∈ probesC5 ∧
    o5.raw (bigText.take 33) mA = none := by decide

/-- Witness for C5 (amended): a failure on the fast-path probe
propagates as the client error. -/
theorem claim5_witness :
    oFail.raw ['x'] mA = none ∧
    runOutcome (truncateRun oFail ['x'] 9 mA 4 (initState 1000)) =
      some (.error .clientError) :=
  ⟨rfl, claim5_fastpath_error_propagates oFail ['x'] 9 mA 4 (initState 1000) (by decide)
    (coherent_initState oFail 1000) rfl⟩

/-- Counterexample to C6 as stated: `truncate` on the empty text
reports 1 call (not 0) and issues two oracle calls (the empty text and
the overhead probe) on a cold instance. -/
theorem claim6_counterexample :
    runOutcome (truncateRun o6 [] 0 mA 5 (initState 1000)) =
      some (.ok ⟨[], 1, 0⟩) ∧
    runCalls (truncateRun o6 [] 0 mA 5 (initState 1000)) =
      some [([], mA), (['A'], mA)] ∧ (1 : Nat) ≠ 0 := by decide

/-- Witness for C6 (amended): the empty text with corrected count 0 and
target 0 returns itself with one reported call. -/
theorem claim6_witness :
    (max 0 ((1 : Int) - ((2 : Int) - 1))).toNat ≤ 0 ∧
    runOutcome (truncateRun o6 [] 0 mA 5 (initState 1000)) =
      some (.ok ⟨[], 1, (max 0 ((1 : Int) - ((2 : Int) - 1))).toNat⟩) :=
  ⟨by decide,
    claim6_empty_text_one_call o6 0 mA 5 (initState 1000) 1 2 (by decide)
      (coherent_initState o6 1000) rfl rfl (by decide)⟩

/-- Witness for C7: the unsupported model id `"gpt-4"` fails fast. -/
theorem claim7_witness :
    formatOk mBad = false ∧
    (count_tokens oW ['h'] mBad (initState 1000) = (.error .valueError, initState 1000) ∧
      truncateRun oW ['h'] 5 mBad 3 (initState 1000) =
        some (.error .valueError, initState 1000, [['h']]) ∧
      (initState 1000).issuedKeys = []) :=
  ⟨by decide, claim7_unsupported_model_fails_fast oW ['h'] 5 mBad 3 1000 (by decide)⟩

/-- Counterexample to C8 as stated: on an instance with `cache_size=1`,
counting two distinct texts evicts the overhead probe's cache entry, so
the probe `"A"` is issued to the oracle twice in the instance's
lifetime. -/
theorem claim8_counterexample :
    ((count_tokens oC8 ['C'] mA (count_tokens oC8 ['B'] mA (initState 1)).2).2).issuedKeys.count
      (['A'], mA) = 2 ∧ ¬((2 : Nat) ≤ 1) := by decide

/-- Witness for C8 (amended): the overhead value on a fresh instance is
`raw("A") − 1`. -/
theorem claim8_witness :
    oW.raw ['A'] mA = some 4 ∧
    (getMessageOverhead oW mA (initState 1000)).1 = .ok ((4 : Int) - 1) :=
  ⟨rfl, claim8_overhead_value_stable oW mA (initState 1000) 4 (by decide)
    (coherent_initState oW 1000) rfl⟩

/-- Witness for C9: with oracle `o9` the first candidate overshoots by
one token, the shrinking scan over the empty recorded best probes
nothing, and `truncate` returns the empty text with two reported calls
and `final_token_count = 0`. -/
theorem claim9_witness :
    truncLoop o9 mA bigText 8 (cptOf bigText 16) 19 (initLoop bigText 8 16 (initState 1000)) =
      some (.ok ls9val) ∧
    truncAdaptive o9 bigText 8 mA 19 (initState 1000) 16 =
      some (.ok ⟨[], ls9val.apiCalls, 0⟩, ls9val.cs, ls9val.probes) :=
  ⟨by decide,
    claim9_no_feasible_returns_empty o9 bigText 8 mA 19 (initState 1000) 16 ls9val
      (by decide) (by decide)⟩

/-- Witness for C10: a module-level count of `"B"` issues the text call
and the overhead probe; repeating on the warmed instance state issues
nothing further. -/
theorem claim10_witness :
    (moduleCountTokens oW ['B'] mA).2.issuedKeys = [((['B'] : List Char), mA), (['A'], mA)] ∧
    (count_tokens oW ['B'] mA (moduleCountTokens oW ['B'] mA).2).2.issuedKeys =
      (moduleCountTokens oW ['B'] mA).2.issuedKeys :=
  claim10_module_level_fresh oW ['B'] mA 4 4 (by decide) rfl rfl (by decide)

end Ttok
